import Mathlib

/-!
Shallow embedding of `omniconfig/__init__.py` (a Python 2 configuration
registry).  Python dicts are modelled as string-keyed association lists,
Python runtime values as the inductive `PyVal`, and the stateful parts
(instance `__dict__`, the singleton slot, the argparse namespace) as
explicit state passing.  Each definition is annotated with the source
construct it embeds.
-/

set_option autoImplicit false
set_option maxHeartbeats 1000000

/-- String-keyed association list, modelling a Python dict (one entry per key). -/
abbrev StrMap (α : Type) : Type := List (String × α)

/-- Lookup of a key: the first matching entry, as Python `d.get(k)` / `d[k]`. -/
def strLookup {α : Type} : StrMap α → String → Option α
  | [], _ => none
  | (k, v) :: rest, key => if k = key then some v else strLookup rest key

/-- Store a key-value pair, as Python `d[k] = v`: replace the first entry with
that key in place, or append a new entry. -/
def strSet {α : Type} : StrMap α → String → α → StrMap α
  | [], key, v => [(key, v)]
  | (k, w) :: rest, key, v =>
    if k = key then (key, v) :: rest else (k, w) :: strSet rest key v

/-- Models Python `d.update(e)`: every entry of `e` is stored into `d` in order,
overwriting entries of `d` whose key occurs in `e`. -/
def dictUpdate {α : Type} (d e : StrMap α) : StrMap α :=
  e.foldl (fun acc kv => strSet acc kv.1 kv.2) d

/-- Runtime Python values as they occur in this module.  `func` is any callable
(a zero-argument default factory), `obj` an opaque non-serializable object
identified by a tag, `param` a `Parameter` namedtuple carried as a value
(its four fields inline: value, type conversion, docstring, envvar). -/
inductive PyVal : Type where
  | int : Int → PyVal
  | bool : Bool → PyVal
  | float : Int → PyVal
  | str : String → PyVal
  | list : List PyVal → PyVal
  | dict : List (PyVal × PyVal) → PyVal
  | none : PyVal
  | obj : Nat → PyVal
  | func : (Unit → PyVal) → PyVal
  | param : PyVal → Option (String → PyVal) → String → Option String → PyVal

/-- Immutable container for configuration parameter options, embedding the
`Parameter` namedtuple: default value (or factory), type conversion from a
string, docstring, and optional environment variable name. -/
structure Parameter : Type where
  value : PyVal
  type_ : Option (String → PyVal)
  docstring : String
  envvar : Option String

/-- Models the namedtuple method `p._replace(value=v)`: a fresh spec with only
the `value` field changed. -/
def Parameter.replaceValue (p : Parameter) (v : PyVal) : Parameter :=
  { p with value := v }

/-- The accessor generated for a parameter by `ConfigMeta.__new__`:
`staticGetter` embeds `functools.partial(get_static, name=...)` and
`lazyGetter f` embeds `functools.partial(get_callable, name=..., func=f)`. -/
inductive Getter : Type where
  | staticGetter : Getter
  | lazyGetter : (Unit → PyVal) → Getter

/-- A configuration class as produced by `ConfigMeta.__new__`:
`config_params` is the merged registry, `slots` the effective class-level
`_name` attributes, `getters` the effective properties.  `slots` and
`getters` are stored MRO-resolved (own class dict first, then direct bases
left to right); this is exact for hierarchies without diamonds below the
common root, which contributes no parameters. -/
structure ConfigClass : Type where
  config_params : StrMap Parameter
  slots : StrMap PyVal
  getters : StrMap Getter

/-- One step of the attribute loop of `ConfigMeta.__new__`: for attribute
`name = value` of the class body, either override an inherited entry
(only its stored value and the class slot, keeping the inherited accessor),
or install a newly declared `Parameter` with its accessor, or pass a plain
attribute through untouched. -/
def newStep (parts : ConfigClass) (name : String) (value : PyVal) : ConfigClass :=
  match strLookup parts.config_params name with
  | some p =>
    { parts with
      config_params := strSet parts.config_params name (p.replaceValue value),
      slots := strSet parts.slots name value }
  | Option.none =>
    match value with
    | .param v t d e =>
      let param : Parameter := ⟨v, t, d, e⟩
      match v with
      | .func f =>
        { parts with
          config_params := strSet parts.config_params name param,
          getters := strSet parts.getters name (.lazyGetter f) }
      | _ =>
        { parts with
          config_params := strSet parts.config_params name param,
          slots := strSet parts.slots name v,
          getters := strSet parts.getters name .staticGetter }
    | _ => parts

/-- The attribute loop of `ConfigMeta.__new__`, over the class body in
declaration order. -/
def processAttrs : ConfigClass → List (String × PyVal) → ConfigClass
  | parts, [] => parts
  | parts, (name, v) :: rest => processAttrs (newStep parts name v) rest

/-- The base-registry merge of `ConfigMeta.__new__`:
`config_params = {}` then `config_params.update(base.config_params)` for each
base in declaration order. -/
def mergeConfigParams (bases : List ConfigClass) : StrMap Parameter :=
  bases.foldl (fun acc b => dictUpdate acc b.config_params) []

/-- Merge of attribute maps where an entry of `d` shadows one of `e` with the
same key: models Python attribute lookup trying an earlier class in the MRO
first. -/
def firstWins {α : Type} (d e : StrMap α) : StrMap α :=
  d ++ e.filter (fun kv => (strLookup d kv.1).isNone)

/-- Effective attribute map of a class: its own new attributes, then the bases
left to right (MRO order for diamond-free hierarchies). -/
def mroFold {α : Type} (own : StrMap α) (bases : List (StrMap α)) : StrMap α :=
  bases.foldl firstWins own

/-- Embeds `ConfigMeta.__new__(mcs, clsname, bases, attrs)`: merge the base
registries with `dict.update` in base order, run the attribute loop, and
expose the resulting class attributes. -/
def ConfigMeta.new (bases : List ConfigClass) (attrs : List (String × PyVal)) :
    ConfigClass :=
  let parts := processAttrs ⟨mergeConfigParams bases, [], []⟩ attrs
  { config_params := parts.config_params,
    slots := mroFold parts.slots (bases.map ConfigClass.slots),
    getters := mroFold parts.getters (bases.map ConfigClass.getters) }

/-- A live configuration instance: its class, its instance `__dict__`
restricted to the private `_name` slots (keyed here by the plain name), and a
ghost count of how many times each lazy default factory has been invoked. -/
structure ConfigInstance : Type where
  cls : ConfigClass
  idict : StrMap PyVal
  calls : StrMap Nat

/-- Python exceptions surfaced by the embedded operations.  `keyError` is the
dict `KeyError` on an unknown parameter name, the error the spec calls
UnknownParameterError. -/
inductive PyError : Type where
  | typeError : PyError
  | attributeError : PyError
  | keyError : String → PyError
  | unrecognizedArgument : String → PyError

/-- Embeds `get_static(self, name)`: `getattr(self, '_'+name)`, i.e. the
instance dict first, then the class attribute; a miss on both is an
`AttributeError`, modelled as `none`. -/
def get_static (self : ConfigInstance) (name : String) :
    Option PyVal × ConfigInstance :=
  match strLookup self.idict name with
  | some v => (some v, self)
  | Option.none => (strLookup self.cls.slots name, self)

/-- Ghost bookkeeping: record one invocation of the factory for `name`. -/
def bumpCall (calls : StrMap Nat) (name : String) : StrMap Nat :=
  strSet calls name ((strLookup calls name).getD 0 + 1)

/-- Embeds `get_callable(self, name, func)`:
`self.__dict__.setdefault('_'+name, func())`.  Python evaluates the argument
`func()` before `setdefault` runs, so the factory is invoked on every call;
its result is stored and returned only when the slot is still missing. -/
def get_callable (self : ConfigInstance) (name : String) (func : Unit → PyVal) :
    Option PyVal × ConfigInstance :=
  let produced := func ()
  let bumped : ConfigInstance := { self with calls := bumpCall self.calls name }
  match strLookup bumped.idict name with
  | some v => (some v, bumped)
  | Option.none =>
    (some produced, { bumped with idict := strSet bumped.idict name produced })

/-- Reading the public attribute `name` on an instance: dispatch to the
property installed by `ConfigMeta.__new__`; no property means the attribute
lookup fails. -/
def configRead (self : ConfigInstance) (name : String) :
    Option PyVal × ConfigInstance :=
  match strLookup self.cls.getters name with
  | some .staticGetter => get_static self name
  | some (.lazyGetter f) => get_callable self name f
  | Option.none => (none, self)

/-- One iteration of the loop in `Config.__init__`: for `(name, param)`, if
`param.envvar and os.environ.get(param.envvar)` (both truthy, i.e. the
declared name and the environment value are non-empty), write
`param.type_(value)` into the private slot; a `type_` of `None` is not
callable, a `TypeError`. -/
def envStep (env : StrMap String) (self : ConfigInstance) (name : String)
    (param : Parameter) : Except PyError ConfigInstance :=
  match param.envvar with
  | some e =>
    if e = "" then .ok self
    else
      match strLookup env e with
      | some s =>
        if s = "" then .ok self
        else
          match param.type_ with
          | some f => .ok { self with idict := strSet self.idict name (f s) }
          | Option.none => .error .typeError
      | Option.none => .ok self
  | Option.none => .ok self

/-- The loop of `Config.__init__` over the registry entries. -/
def initGo (env : StrMap String) :
    ConfigInstance → List (String × Parameter) → Except PyError ConfigInstance
  | self, [] => .ok self
  | self, (name, param) :: rest =>
    match envStep env self name param with
    | .ok next => initGo env next rest
    | .error e => .error e

/-- Embeds `Config.__init__` run on a fresh instance of `cls`: override
default values with environment variables. -/
def configInit (cls : ConfigClass) (env : StrMap String) :
    Except PyError ConfigInstance :=
  initGo env ⟨cls, [], []⟩ cls.config_params

/-- Embeds `ConfigMeta.__call__`: the per-class singleton slot.  The state is
the stored `cls.__instance`; a later call returns it unchanged, ignoring all
arguments.  The first call constructs the instance; positional arguments on
the first call reach `Config.__init__(self)`, which accepts none, a
`TypeError`. -/
def ConfigMeta.call (cls : ConfigClass) (st : Option ConfigInstance)
    (env : StrMap String) (args : List PyVal) :
    Except PyError (ConfigInstance × Option ConfigInstance) :=
  match st with
  | some inst => .ok (inst, some inst)
  | Option.none =>
    if args.isEmpty then
      match configInit cls env with
      | .ok inst => .ok (inst, some inst)
      | .error e => .error e
    else .error .typeError

/-- One argument added by `parser.add_argument('--'+name, help=..., default=...,
type=..., action=_ArgparseAction)` in `Config.get_argparse`. -/
structure ArgSpec : Type where
  name : String
  help : String
  defaultValue : PyVal
  type_ : Option (String → PyVal)

/-- The parser built by `Config.get_argparse`; its reference
`parser.config_instance` is modelled by passing the instance to the parse
functions explicitly. -/
structure ArgumentParser : Type where
  args : List ArgSpec

/-- The loop of `Config.get_argparse`: for each requested name, the dict
access `self.config_params[name]` raises `KeyError` on an unknown name,
otherwise an argument is added from the stored spec. -/
def addArguments (params : StrMap Parameter) :
    List String → Except PyError (List ArgSpec)
  | [] => .ok []
  | n :: rest =>
    match strLookup params n with
    | Option.none => .error (.keyError n)
    | some p =>
      match addArguments params rest with
      | .ok specs => .ok (⟨n, p.docstring, p.value, p.type_⟩ :: specs)
      | .error e => .error e

/-- Embeds `Config.get_argparse(self, param_names)`: an `ArgumentParser` with
one flag per requested parameter name, or the `KeyError` of the first
unknown name; no parser is returned on error. -/
def Config.get_argparse (self : ConfigInstance) (param_names : List String) :
    Except PyError ArgumentParser :=
  match addArguments self.cls.config_params param_names with
  | .ok specs => .ok ⟨specs⟩
  | .error e => .error e

/-- The type conversion the external argparse library applies to a raw flag
value before invoking the action: the stored converter, or the identity on
strings when the declared type is `None`. -/
def convertValue (t : Option (String → PyVal)) (raw : String) : PyVal :=
  match t with
  | some f => f raw
  | Option.none => .str raw

/-- Embeds `_ArgparseAction.__call__`: write the converted value into the
private slot of the live instance (`setattr(parser.config_instance,
'_'+dest, values)`), then store it in the namespace as the default action
does. -/
def argparseAction (self : ConfigInstance) (ns : StrMap PyVal) (dest : String)
    (values : PyVal) : ConfigInstance × StrMap PyVal :=
  ({ self with idict := strSet self.idict dest values }, strSet ns dest values)

/-- The flag loop of the external argparse library: each given `--flag raw`
pair is matched against the declared arguments, its raw string converted,
and the action invoked; an unmatched flag is a parse error. -/
def parseGo (p : ArgumentParser) :
    ConfigInstance → StrMap PyVal → List (String × String) →
    Except PyError (StrMap PyVal × ConfigInstance)
  | self, ns, [] => .ok (ns, self)
  | self, ns, (flag, raw) :: rest =>
    match p.args.find? (fun a => a.name == flag) with
    | Option.none => .error (.unrecognizedArgument flag)
    | some spec =>
      let v := convertValue spec.type_ raw
      let step := argparseAction self ns spec.name v
      parseGo p step.1 step.2 rest

/-- Models `parser.parse_args(argv)` of the external argparse library on a
parser built by `Config.get_argparse`: the namespace starts with every
declared default (stored without invoking the action), then the given flags
are processed in order. -/
def parse_args (p : ArgumentParser) (self : ConfigInstance)
    (argv : List (String × String)) :
    Except PyError (StrMap PyVal × ConfigInstance) :=
  parseGo p self (p.args.map (fun a => (a.name, a.defaultValue))) argv

/-- The filter of `Config.get_dict(strict=True)`:
`isinstance(value, (int, bool, float, str, unicode, list, dict))`. -/
def isSerializableInstance : PyVal → Bool
  | .int _ => true
  | .bool _ => true
  | .float _ => true
  | .str _ => true
  | .list _ => true
  | .dict _ => true
  | _ => false

/-- The dict comprehension of `Config.get_dict`: read every listed parameter
through its accessor, threading the instance state; a failed attribute
lookup is an `AttributeError`. -/
def readAll : ConfigInstance → List String →
    Except PyError (StrMap PyVal × ConfigInstance)
  | self, [] => .ok ([], self)
  | self, n :: rest =>
    match configRead self n with
    | (some v, next) =>
      match readAll next rest with
      | .ok (out, final) => .ok ((n, v) :: out, final)
      | .error e => .error e
    | (Option.none, _) => .error .attributeError

/-- Embeds `Config.get_dict(self, strict)`: a mapping of every registered
parameter name to its current value, filtered by the `isinstance` check when
`strict` is set. -/
def Config.get_dict (self : ConfigInstance) (strict : Bool) :
    Except PyError (StrMap PyVal × ConfigInstance) :=
  match readAll self (self.cls.config_params.map Prod.fst) with
  | .ok (out, final) =>
    .ok ((if strict then out.filter (fun kv => isSerializableInstance kv.2)
          else out), final)
  | .error e => .error e

/-- Embeds `Config.set_dict(self, data)`: for each key of `data`, the dict
access `self.config_params[name]` raises `KeyError` on an unknown name
(returned here with the state reached so far); otherwise
`self.config_params[name]._replace(value=value)` is computed and its result
discarded, and the private slot is overwritten. -/
def Config.set_dict : ConfigInstance → List (String × PyVal) →
    ConfigInstance × Option PyError
  | self, [] => (self, none)
  | self, (name, value) :: rest =>
    match strLookup self.cls.config_params name with
    | Option.none => (self, some (.keyError name))
    | some p =>
      let _discarded := p.replaceValue value
      Config.set_dict { self with idict := strSet self.idict name value } rest

/-- Left-biased choice on options, used to state lookup lemmas. -/
def optOr {α : Type} : Option α → Option α → Option α
  | some v, _ => some v
  | Option.none, b => b

theorem optOr_none_right {α : Type} (a : Option α) : optOr a none = a := by
  cases a <;> rfl

theorem optOr_assoc {α : Type} (a b c : Option α) :
    optOr (optOr a b) c = optOr a (optOr b c) := by
  cases a <;> rfl

theorem strLookup_strSet {α : Type} (d : StrMap α) (k : String) (v : α)
    (key : String) :
    strLookup (strSet d k v) key = if k = key then some v else strLookup d key := by
  induction d with
  | nil => simp [strSet, strLookup]
  | cons hd tl ih =>
    obtain ⟨k', v'⟩ := hd
    by_cases h : k' = k
    · subst h
      simp [strSet, strLookup]
      by_cases hk : k' = key <;> simp [hk, strLookup]
    · simp [strSet, h, strLookup]
      by_cases hk : k' = key
      · subst hk
        have : ¬ (k = k') := fun hh => h hh.symm
        simp [this]
      · simp [hk, ih]

theorem strLookup_eq_none_of_not_mem {α : Type} (d : StrMap α) (k : String)
    (h : k ∉ d.map Prod.fst) : strLookup d k = none := by
  induction d with
  | nil => rfl
  | cons hd tl ih =>
    obtain ⟨k', v'⟩ := hd
    simp only [List.map_cons, List.mem_cons] at h
    push_neg at h
    have hk : k' ≠ k := fun hh => h.1 hh.symm
    simp [strLookup, hk, ih h.2]

theorem dictUpdate_cons {α : Type} (d : StrMap α) (k : String) (v : α)
    (rest : StrMap α) :
    dictUpdate d ((k, v) :: rest) = dictUpdate (strSet d k v) rest := rfl

theorem strLookup_dictUpdate {α : Type} (e d : StrMap α) (k : String)
    (he : (e.map Prod.fst).Nodup) :
    strLookup (dictUpdate d e) k = optOr (strLookup e k) (strLookup d k) := by
  induction e generalizing d with
  | nil => rfl
  | cons hd rest ih =>
    obtain ⟨k', v'⟩ := hd
    simp only [List.map_cons, List.nodup_cons] at he
    rw [dictUpdate_cons, ih _ he.2]
    by_cases hk : k' = k
    · subst hk
      have hrest : strLookup rest k' = none :=
        strLookup_eq_none_of_not_mem rest k' he.1
      simp [strLookup, hrest, strLookup_strSet, optOr]
    · simp [strLookup, hk, strLookup_strSet, optOr]

/-- One step of the rightmost-wins fold: a base that declares the name
replaces the accumulator. -/
def rmStep (k : String) (acc : Option Parameter) (b : ConfigClass) :
    Option Parameter :=
  optOr (strLookup b.config_params k) acc

/-- Specification helper for the amended merge rule: the registry entry of the
last (rightmost) base whose registry declares the name. -/
def rightmostBaseEntry (bases : List ConfigClass) (k : String) :
    Option Parameter :=
  bases.foldl (rmStep k) none

theorem rightmost_foldl_init (k : String) (bases : List ConfigClass)
    (i : Option Parameter) :
    bases.foldl (rmStep k) i = optOr (rightmostBaseEntry bases k) i := by
  induction bases generalizing i with
  | nil => rfl
  | cons b rest ih =>
    show rest.foldl (rmStep k) (rmStep k i b) =
      optOr (rest.foldl (rmStep k) (rmStep k none b)) i
    rw [ih (rmStep k i b), ih (rmStep k none b)]
    unfold rmStep
    rw [optOr_none_right, optOr_assoc]

theorem strLookup_mergeConfigParams (bases : List ConfigClass) (k : String)
    (h : ∀ b ∈ bases, (b.config_params.map Prod.fst).Nodup) :
    strLookup (mergeConfigParams bases) k = rightmostBaseEntry bases k := by
  suffices H : ∀ (acc : StrMap Parameter),
      (∀ b ∈ bases, (b.config_params.map Prod.fst).Nodup) →
      strLookup (bases.foldl (fun a b => dictUpdate a b.config_params) acc) k =
        optOr (rightmostBaseEntry bases k) (strLookup acc k) by
    have := H [] h
    rw [show strLookup ([] : StrMap Parameter) k = none from rfl,
      optOr_none_right] at this
    exact this
  induction bases with
  | nil => intro acc _; rfl
  | cons b rest ih =>
    intro acc hn
    have hb : (b.config_params.map Prod.fst).Nodup := hn b (by simp)
    have hrest : ∀ c ∈ rest, (c.config_params.map Prod.fst).Nodup :=
      fun c hc => hn c (by simp [hc])
    show strLookup (rest.foldl _ (dictUpdate acc b.config_params)) k = _
    rw [ih hrest (dictUpdate acc b.config_params) hrest,
        strLookup_dictUpdate _ _ _ hb]
    show _ = optOr (rest.foldl (rmStep k) (rmStep k none b) ) (strLookup acc k)
    rw [rightmost_foldl_init]
    unfold rmStep
    rw [optOr_none_right, optOr_assoc]

/-- Class A of the two-base example: declares `x` with default 1 and
docstring "from A". -/
def exA : ConfigClass :=
  ConfigMeta.new [] [("x", .param (.int 1) none "from A" none)]

/-- Class B of the two-base example: declares `x` with default 2 and
docstring "from B". -/
def exB : ConfigClass :=
  ConfigMeta.new [] [("x", .param (.int 2) none "from B" none)]

/-- C1 counterexample: for a class with bases (A, B) that both declare `x`,
the merged registry keeps the entry of B, the last base, not of the leftmost
ancestor A: its docstring reads "from B". -/
theorem C1_counterexample :
    (strLookup (ConfigMeta.new [exA, exB] []).config_params "x").map
        Parameter.docstring = some "from B" ∧
      some "from B" ≠ (some "from A" : Option String) := by
  exact ⟨by rfl, by decide⟩

/-- C1 (amended): the merged registry of a class is the left fold of
`dict.update` over the base registries, so on a conflicting name the
last-declaring (rightmost) base wins: the merged entry for a name is the
entry of the last base whose registry contains it. -/
theorem C1_merged_registry_last_base_wins (bases : List ConfigClass)
    (k : String)
    (h : ∀ b ∈ bases, (b.config_params.map Prod.fst).Nodup) :
    strLookup (ConfigMeta.new bases []).config_params k =
      rightmostBaseEntry bases k := by
  show strLookup (mergeConfigParams bases) k = _
  exact strLookup_mergeConfigParams bases k h

/-- C1 witness: the amended merge rule evaluated on the two-base example. -/
theorem C1_merged_registry_last_base_wins_witness :
    (∀ b ∈ [exA, exB], (b.config_params.map Prod.fst).Nodup) ∧
      strLookup (ConfigMeta.new [exA, exB] []).config_params "x" =
        rightmostBaseEntry [exA, exB] "x" := by
  refine ⟨?_, C1_merged_registry_last_base_wins [exA, exB] "x" ?_⟩ <;>
    · intro b hb
      simp only [List.mem_cons, List.not_mem_nil, or_false] at hb
      rcases hb with h | h <;> subst h <;> simp [exA, exB, ConfigMeta.new,
        processAttrs, newStep, mergeConfigParams, strLookup, strSet, dictUpdate]

theorem newStep_config_params (parts : ConfigClass) (key : String) (v : PyVal) :
    (newStep parts key v).config_params =
      match strLookup parts.config_params key with
      | some p => strSet parts.config_params key (p.replaceValue v)
      | Option.none =>
        match v with
        | .param a t d e => strSet parts.config_params key ⟨a, t, d, e⟩
        | _ => parts.config_params := by
  unfold newStep
  cases strLookup parts.config_params key
  · cases v
    case param a t d e => cases a <;> rfl
    all_goals rfl
  · rfl

theorem newStep_lookup_other (parts : ConfigClass) (key : String) (v : PyVal)
    (name : String) (h : key ≠ name) :
    strLookup (newStep parts key v).config_params name =
      strLookup parts.config_params name := by
  rw [newStep_config_params]
  cases strLookup parts.config_params key
  · cases v <;> simp [strLookup_strSet, h]
  · simp [strLookup_strSet, h]

theorem processAttrs_frame (attrs : List (String × PyVal)) (parts : ConfigClass)
    (name : String) (h : name ∉ attrs.map Prod.fst) :
    strLookup (processAttrs parts attrs).config_params name =
      strLookup parts.config_params name := by
  induction attrs generalizing parts with
  | nil => rfl
  | cons hd rest ih =>
    obtain ⟨k, w⟩ := hd
    simp only [List.map_cons, List.mem_cons] at h
    push_neg at h
    show strLookup (processAttrs (newStep parts k w) rest).config_params name = _
    rw [ih (newStep parts k w) h.2,
      newStep_lookup_other parts k w name (fun hh => h.1 hh.symm)]

theorem processAttrs_override (attrs : List (String × PyVal))
    (parts : ConfigClass) (name : String) (v : PyVal) (p : Parameter)
    (hp : strLookup parts.config_params name = some p)
    (hmem : (name, v) ∈ attrs)
    (hnd : (attrs.map Prod.fst).Nodup) :
    strLookup (processAttrs parts attrs).config_params name =
      some (p.replaceValue v) := by
  induction attrs generalizing parts with
  | nil => cases hmem
  | cons hd rest ih =>
    obtain ⟨k, w⟩ := hd
    simp only [List.map_cons, List.nodup_cons] at hnd
    rcases List.mem_cons.mp hmem with heq | hrest
    · obtain ⟨hn, hv⟩ := Prod.mk.injEq .. ▸ heq
      subst hn
      subst hv
      show strLookup (processAttrs (newStep parts name v) rest).config_params
          name = _
      rw [processAttrs_frame rest (newStep parts name v) name hnd.1,
        newStep_config_params, hp, strLookup_strSet]
      simp
    · have hk : k ≠ name := by
        intro hh
        subst hh
        exact hnd.1 (List.mem_map.mpr ⟨(k, v), hrest, rfl⟩)
      show strLookup (processAttrs (newStep parts k w) rest).config_params
          name = _
      exact ih (newStep parts k w)
        (by rw [newStep_lookup_other parts k w name hk]; exact hp) hrest hnd.2

/-- C5 counterexample: for class C with bases (A, B) that both declare `x`,
re-declaring `x = 5` in C keeps the docstring of B, the last-declaring base,
not of the first-declaring ancestor A. -/
theorem C5_counterexample :
    (strLookup (ConfigMeta.new [exA, exB] [("x", PyVal.int 5)]).config_params
        "x").map Parameter.docstring = some "from B" ∧
      (strLookup (ConfigMeta.new [exA, exB]
          [("x", PyVal.int 5)]).config_params "x").map Parameter.value =
        some (PyVal.int 5) ∧
      some "from B" ≠ (some "from A" : Option String) :=
  ⟨by rfl, by rfl, by decide⟩

/-- C5 (amended): a subclass re-declaring an inherited parameter name changes
only the default-value field of the merged registry entry; converter,
docstring and environment-variable name remain those of the inherited entry,
which is the entry of the last-declaring (rightmost) base in the merged base
registries, not necessarily of the first-declaring ancestor. -/
theorem C5_subclass_overrides_value_only (bases : List ConfigClass)
    (attrs : List (String × PyVal)) (name : String) (v : PyVal) (p : Parameter)
    (hmerged : strLookup (mergeConfigParams bases) name = some p)
    (hmem : (name, v) ∈ attrs)
    (hnd : (attrs.map Prod.fst).Nodup) :
    strLookup (ConfigMeta.new bases attrs).config_params name =
      some ⟨v, p.type_, p.docstring, p.envvar⟩ := by
  show strLookup
      (processAttrs ⟨mergeConfigParams bases, [], []⟩ attrs).config_params
      name = _
  rw [processAttrs_override attrs ⟨mergeConfigParams bases, [], []⟩ name v p
      hmerged hmem hnd]
  cases p
  rfl

/-- C5 witness: overriding `x = 5` in a class over bases (A, B) yields the
entry with value 5 and the non-value fields of B. -/
theorem C5_subclass_overrides_value_only_witness :
    strLookup (mergeConfigParams [exA, exB]) "x" =
        some ⟨PyVal.int 2, none, "from B", none⟩ ∧
      strLookup (ConfigMeta.new [exA, exB]
          [("x", PyVal.int 5)]).config_params "x" =
        some ⟨PyVal.int 5, none, "from B", none⟩ :=
  ⟨by rfl,
    C5_subclass_overrides_value_only [exA, exB] [("x", PyVal.int 5)] "x"
      (PyVal.int 5) ⟨PyVal.int 2, none, "from B", none⟩ (by rfl)
      (by simp) (by simp)⟩

/-- A class declaring one parameter `x` whose default is a zero-argument
factory returning 7. -/
def exLazy : ConfigClass :=
  ConfigMeta.new [] [("x", .param (.func (fun _ => .int 7)) none "lazy" none)]

/-- A fresh instance of the lazy example class. -/
def exLazyInstance : ConfigInstance := ⟨exLazy, [], []⟩

/-- C2: evaluation of the code at the failing input.  Reading the factory
parameter twice on one instance invokes the factory twice (the ghost call
count reaches 2), because `setdefault(name, func())` evaluates `func()` on
every read; only the first result is stored and every read returns it.  The
claim says the factory runs at most once per instance, which matches the
docstring of `get_callable` but not its code. -/
theorem C2_factory_runs_on_every_read :
    strLookup (configRead (configRead exLazyInstance "x").2 "x").2.calls "x" =
        some 2 ∧
      (configRead exLazyInstance "x").1 = some (.int 7) ∧
      (configRead (configRead exLazyInstance "x").2 "x").1 = some (.int 7) :=
  ⟨by rfl, by rfl, by rfl⟩

/-- C3: `ConfigMeta.__call__` stores the instance built by the first
construction call; every later construction call returns that identical
stored instance and leaves the stored state unchanged, silently ignoring
the arguments and the environment of the later call. -/
theorem C3_second_call_returns_first_instance (cls : ConfigClass)
    (env env2 : StrMap String) (args args2 : List PyVal)
    (inst : ConfigInstance) (st : Option ConfigInstance)
    (h : ConfigMeta.call cls none env args = .ok (inst, st)) :
    ConfigMeta.call cls st env2 args2 = .ok (inst, st) := by
  unfold ConfigMeta.call at h
  cases args with
  | nil =>
    simp only [List.isEmpty_nil, if_true] at h
    cases hinit : configInit cls env with
    | ok i =>
      rw [hinit] at h
      obtain ⟨h1, h2⟩ := Prod.mk.injEq .. ▸ Except.ok.inj h
      subst h1
      subst h2
      rfl
    | error e =>
      rw [hinit] at h
      cases h
  | cons a l =>
    simp only [List.isEmpty_cons, Bool.false_eq_true, if_false] at h
    cases h

/-- C3 witness: with the instance of the first call stored, a later call with
different arguments and environment returns the identical instance. -/
theorem C3_second_call_returns_first_instance_witness :
    ConfigMeta.call exA (some ⟨exA, [], []⟩) [("HOME", "h")] [PyVal.int 9] =
      .ok (⟨exA, [], []⟩, some ⟨exA, [], []⟩) :=
  C3_second_call_returns_first_instance exA [] [("HOME", "h")] [] [PyVal.int 9]
    ⟨exA, [], []⟩ (some ⟨exA, [], []⟩) (by rfl)

theorem addArguments_error (params : StrMap Parameter) (names : List String)
    (name : String) (hmem : name ∈ names)
    (hmiss : strLookup params name = none) :
    ∃ m, addArguments params names = .error (.keyError m) ∧
      strLookup params m = none := by
  induction names with
  | nil => cases hmem
  | cons n rest ih =>
    cases hl : strLookup params n with
    | none => exact ⟨n, by simp [addArguments, hl], hl⟩
    | some q =>
      have hn : n ≠ name := by
        intro hh
        subst hh
        rw [hl] at hmiss
        cases hmiss
      have hrest : name ∈ rest := by
        rcases List.mem_cons.mp hmem with hh | hh
        · exact absurd hh.symm hn
        · exact hh
      obtain ⟨m, hm, hm2⟩ := ih hrest
      exact ⟨m, by simp [addArguments, hl, hm], hm2⟩

/-- C7: requesting an argument surface for a parameter-name list containing a
name absent from the merged registry raises the unknown-name error (the
`KeyError` of `self.config_params[name]`, the error the spec calls
UnknownParameterError), and no parser is returned. -/
theorem C7_unknown_name_raises (self : ConfigInstance)
    (param_names : List String) (name : String)
    (hmem : name ∈ param_names)
    (hmiss : strLookup self.cls.config_params name = none) :
    ∃ m, Config.get_argparse self param_names = .error (.keyError m) ∧
      strLookup self.cls.config_params m = none := by
  obtain ⟨m, hm, hm2⟩ :=
    addArguments_error self.cls.config_params param_names name hmem hmiss
  exact ⟨m, by simp [Config.get_argparse, hm], hm2⟩

/-- C7 witness: requesting `["x", "zzz"]` on the example class, where `zzz`
is unknown, yields the unknown-name error. -/
theorem C7_unknown_name_raises_witness :
    ∃ m, Config.get_argparse ⟨exA, [], []⟩ ["x", "zzz"] = .error (.keyError m) ∧
      strLookup exA.config_params m = none :=
  C7_unknown_name_raises ⟨exA, [], []⟩ ["x", "zzz"] "zzz" (by simp) (by rfl)

theorem addArguments_find (params : StrMap Parameter) (names : List String)
    (specs : List ArgSpec) (name : String) (p : Parameter)
    (hok : addArguments params names = .ok specs)
    (hmem : name ∈ names)
    (hp : strLookup params name = some p) :
    specs.find? (fun a => a.name == name) =
      some ⟨name, p.docstring, p.value, p.type_⟩ := by
  induction names generalizing specs with
  | nil => cases hmem
  | cons n rest ih =>
    cases hl : strLookup params n with
    | none => rw [addArguments, hl] at hok; cases hok
    | some q =>
      cases hrest : addArguments params rest with
      | error e => rw [addArguments, hl, hrest] at hok; cases hok
      | ok specs' =>
        rw [addArguments, hl, hrest] at hok
        have hspecs := (Except.ok.inj hok).symm
        subst hspecs
        by_cases hn : n = name
        · subst hn
          rw [hl] at hp
          have hq := Option.some.inj hp
          subst hq
          simp [List.find?]
        · have hmem' : name ∈ rest := by
            rcases List.mem_cons.mp hmem with hh | hh
            · exact absurd hh.symm hn
            · exact hh
          rw [List.find?]
          have : (ArgSpec.name ⟨n, q.docstring, q.value, q.type_⟩ == name) =
              false := by simp [hn]
          rw [this]
          exact ih specs' hrest hmem'

/-- C4: successfully parsing `--name v` on an argument surface exposing
`name` both stores the converted value in the parse result and immediately
writes it into the private slot of the live instance, while the class (and
so the stored registry default for `name`) is unchanged. -/
theorem C4_parse_writes_slot (self : ConfigInstance) (names : List String)
    (name raw : String) (p : ArgumentParser) (param : Parameter)
    (f : String → PyVal) (ns : StrMap PyVal) (inst2 : ConfigInstance)
    (hreg : strLookup self.cls.config_params name = some param)
    (htype : param.type_ = some f)
    (hmem : name ∈ names)
    (hp : Config.get_argparse self names = .ok p)
    (hparse : parse_args p self [(name, raw)] = .ok (ns, inst2)) :
    strLookup ns name = some (f raw) ∧
      strLookup inst2.idict name = some (f raw) ∧
      inst2.cls = self.cls ∧
      strLookup inst2.cls.config_params name = some param := by
  cases haa : addArguments self.cls.config_params names with
  | error e =>
    unfold Config.get_argparse at hp
    rw [haa] at hp
    cases hp
  | ok specs =>
    unfold Config.get_argparse at hp
    rw [haa] at hp
    have hspecs := (Except.ok.inj hp).symm
    subst hspecs
    have hfind := addArguments_find self.cls.config_params names specs name
      param haa hmem hreg
    unfold parse_args parseGo at hparse
    rw [hfind] at hparse
    simp only [convertValue, htype, argparseAction, parseGo] at hparse
    obtain ⟨hns, hinst⟩ := Prod.mk.injEq .. ▸ Except.ok.inj hparse
    subst hns
    subst hinst
    refine ⟨?_, ?_, rfl, hreg⟩
    · rw [strLookup_strSet]
      simp
    · rw [strLookup_strSet]
      simp

/-- Example converter used by the port class: wraps the raw string so the
conversion is visible in the result. -/
def exConvFn : String → PyVal := fun s => PyVal.list [PyVal.str s]

/-- A class declaring one parameter `port` with default 8080 and the example
converter. -/
def exPort : ConfigClass :=
  ConfigMeta.new [] [("port", .param (.int 8080) (some exConvFn) "the port" none)]

/-- A fresh instance of the port class. -/
def exPortInstance : ConfigInstance := ⟨exPort, [], []⟩

/-- The parser built for `["port"]` on the port class. -/
def exParser : ArgumentParser :=
  ⟨[⟨"port", "the port", .int 8080, some exConvFn⟩]⟩

/-- C4 witness: parsing `--port 5000` on the port class writes the converted
value into the slot and the namespace and leaves the registry unchanged. -/
theorem C4_parse_writes_slot_witness :
    strLookup [("port", exConvFn "5000")] "port" = some (exConvFn "5000") ∧
      strLookup (ConfigInstance.mk exPort [("port", exConvFn "5000")] []).idict
          "port" = some (exConvFn "5000") ∧
      (ConfigInstance.mk exPort [("port", exConvFn "5000")] []).cls =
        exPortInstance.cls ∧
      strLookup (ConfigInstance.mk exPort [("port", exConvFn "5000")]
            []).cls.config_params "port" =
        some ⟨PyVal.int 8080, some exConvFn, "the port", none⟩ :=
  C4_parse_writes_slot exPortInstance ["port"] "port" "5000" exParser
    ⟨PyVal.int 8080, some exConvFn, "the port", none⟩ exConvFn
    [("port", exConvFn "5000")]
    (ConfigInstance.mk exPort [("port", exConvFn "5000")] [])
    (by rfl) (by rfl) (by simp) (by rfl) (by rfl)

theorem setDict_cls (data : List (String × PyVal)) (self : ConfigInstance) :
    (Config.set_dict self data).1.cls = self.cls := by
  induction data generalizing self with
  | nil => rfl
  | cons hd rest ih =>
    obtain ⟨name, value⟩ := hd
    show (match strLookup self.cls.config_params name with
      | Option.none => (self, some (PyError.keyError name))
      | some p =>
        Config.set_dict { self with idict := strSet self.idict name value }
          rest).1.cls = self.cls
    cases strLookup self.cls.config_params name
    · rfl
    · exact ih { self with idict := strSet self.idict name value }

theorem setDict_idict_frame (data : List (String × PyVal))
    (self : ConfigInstance) (n : String) (h : n ∉ data.map Prod.fst) :
    strLookup (Config.set_dict self data).1.idict n = strLookup self.idict n := by
  induction data generalizing self with
  | nil => rfl
  | cons hd rest ih =>
    obtain ⟨name, value⟩ := hd
    simp only [List.map_cons, List.mem_cons] at h
    push_neg at h
    show strLookup (match strLookup self.cls.config_params name with
      | Option.none => (self, some (PyError.keyError name))
      | some p =>
        Config.set_dict { self with idict := strSet self.idict name value }
          rest).1.idict n = strLookup self.idict n
    cases strLookup self.cls.config_params name
    · rfl
    · rw [ih { self with idict := strSet self.idict name value } h.2]
      show strLookup (strSet self.idict name value) n = _
      rw [strLookup_strSet]
      exact if_neg (fun hh => h.1 hh.symm)

/-- C9: `set_dict(data)` overwrites only the private slots named by keys of
`data`: the slot of every other parameter is unchanged, and the registry
(every ParameterSpec, including its stored default value) is unchanged,
because the `_replace` result is discarded.  This holds whether or not the
call runs to completion. -/
theorem C9_set_dict_frame_effect (self : ConfigInstance)
    (data : List (String × PyVal)) :
    (Config.set_dict self data).1.cls.config_params =
        self.cls.config_params ∧
      ∀ n, n ∉ data.map Prod.fst →
        strLookup (Config.set_dict self data).1.idict n =
          strLookup self.idict n :=
  ⟨congrArg ConfigClass.config_params (setDict_cls data self),
    fun n hn => setDict_idict_frame data self n hn⟩

/-- A class declaring two static parameters `a` and `b`. -/
def exTwo : ConfigClass :=
  ConfigMeta.new []
    [("a", .param (.int 1) none "" none), ("b", .param (.int 2) none "" none)]

/-- C9 witness: setting `a` on an instance of the two-parameter class leaves
the slot of `b` and the registry unchanged. -/
theorem C9_set_dict_frame_effect_witness :
    (Config.set_dict (ConfigInstance.mk exTwo [("b", PyVal.int 5)] [])
          [("a", PyVal.int 9)]).1.cls.config_params = exTwo.config_params ∧
      strLookup (Config.set_dict
          (ConfigInstance.mk exTwo [("b", PyVal.int 5)] [])
          [("a", PyVal.int 9)]).1.idict "b" =
        strLookup [("b", PyVal.int 5)] "b" :=
  ⟨(C9_set_dict_frame_effect (ConfigInstance.mk exTwo [("b", PyVal.int 5)] [])
      [("a", PyVal.int 9)]).1,
    (C9_set_dict_frame_effect (ConfigInstance.mk exTwo [("b", PyVal.int 5)] [])
      [("a", PyVal.int 9)]).2 "b" (by simp)⟩

theorem strLookup_mem {α : Type} (d : StrMap α) (k : String) (v : α)
    (h : strLookup d k = some v) : (k, v) ∈ d := by
  induction d with
  | nil => cases h
  | cons hd rest ih =>
    obtain ⟨k', v'⟩ := hd
    by_cases hk : k' = k
    · subst hk
      rw [strLookup, if_pos rfl] at h
      exact List.mem_cons.mpr (Or.inl (by rw [Option.some.inj h]))
    · rw [strLookup, if_neg hk] at h
      exact List.mem_cons.mpr (Or.inr (ih h))

theorem envStep_shape (env : StrMap String) (self : ConfigInstance)
    (k : String) (q : Parameter) (next : ConfigInstance)
    (h : envStep env self k q = .ok next) :
    next = self ∨ ∃ w, next = { self with idict := strSet self.idict k w } := by
  unfold envStep at h
  repeat' split at h
  all_goals first
    | (exact Or.inl (Except.ok.inj h).symm)
    | (exact Or.inr ⟨_, (Except.ok.inj h).symm⟩)
    | (cases h)

theorem envStep_ok (env : StrMap String) (self : ConfigInstance) (k : String)
    (q : Parameter) (next : ConfigInstance)
    (h : envStep env self k q = .ok next) :
    next.cls = self.cls ∧ next.calls = self.calls ∧
      ∀ n, n ≠ k → strLookup next.idict n = strLookup self.idict n := by
  rcases envStep_shape env self k q next h with rfl | ⟨w, rfl⟩
  · exact ⟨rfl, rfl, fun n _ => rfl⟩
  · refine ⟨rfl, rfl, fun n hn => ?_⟩
    show strLookup (strSet self.idict k w) n = _
    rw [strLookup_strSet]
    exact if_neg (fun hh => hn hh.symm)

theorem envStep_hit (env : StrMap String) (self : ConfigInstance) (k : String)
    (q : Parameter) (e s : String) (f : String → PyVal)
    (he : q.envvar = some e) (hne : e ≠ "")
    (hs : strLookup env e = some s) (hs0 : s ≠ "")
    (ht : q.type_ = some f) :
    envStep env self k q =
      .ok { self with idict := strSet self.idict k (f s) } := by
  unfold envStep
  simp [he, hne, hs, hs0, ht]

theorem envStep_miss (env : StrMap String) (self : ConfigInstance) (k : String)
    (q : Parameter)
    (h : q.envvar = none ∨ ∀ e, q.envvar = some e →
      (e = "" ∨ strLookup env e = none ∨ strLookup env e = some "")) :
    envStep env self k q = .ok self := by
  unfold envStep
  cases hv : q.envvar with
  | none => rfl
  | some e =>
    rcases h with h0 | h1
    · rw [hv] at h0; cases h0
    · rcases h1 e hv with he2 | hn | hs
      · simp [he2]
      · simp [hn]
      · simp [hs]

theorem initGo_ok (env : StrMap String) (entries : List (String × Parameter)) :
    ∀ self inst, initGo env self entries = .ok inst →
      inst.cls = self.cls ∧ inst.calls = self.calls ∧
        ∀ n, n ∉ entries.map Prod.fst →
          strLookup inst.idict n = strLookup self.idict n := by
  induction entries with
  | nil =>
    intro self inst h
    obtain rfl := (Except.ok.inj h).symm
    exact ⟨rfl, rfl, fun n _ => rfl⟩
  | cons hd rest ih =>
    intro self inst h
    obtain ⟨k, q⟩ := hd
    unfold initGo at h
    cases hstep : envStep env self k q with
    | error e => rw [hstep] at h; cases h
    | ok next =>
      rw [hstep] at h
      obtain ⟨hc, hca, hfr⟩ := ih next inst h
      obtain ⟨hc2, hca2, hfr2⟩ := envStep_ok env self k q next hstep
      refine ⟨hc.trans hc2, hca.trans hca2, fun n hn => ?_⟩
      simp only [List.map_cons, List.mem_cons] at hn
      push_neg at hn
      rw [hfr n hn.2, hfr2 n (fun hh => hn.1 hh)]

theorem initGo_hit (env : StrMap String) (entries : List (String × Parameter)) :
    ∀ self inst name param e s f,
      (name, param) ∈ entries → (entries.map Prod.fst).Nodup →
      param.envvar = some e → e ≠ "" →
      strLookup env e = some s → s ≠ "" →
      param.type_ = some f →
      initGo env self entries = .ok inst →
      strLookup inst.idict name = some (f s) := by
  induction entries with
  | nil => intro _ _ _ _ _ _ _ hmem _ _ _ _ _ _ _; cases hmem
  | cons hd rest ih =>
    intro self inst name param e s f hmem hnd he hne hs hs0 ht h
    obtain ⟨k, q⟩ := hd
    simp only [List.map_cons, List.nodup_cons] at hnd
    unfold initGo at h
    rcases List.mem_cons.mp hmem with heq | hmemr
    · obtain ⟨hk, hq⟩ := Prod.mk.injEq .. ▸ heq
      subst hk
      subst hq
      rw [envStep_hit env self name param e s f he hne hs hs0 ht] at h
      obtain ⟨_, _, hfr⟩ := initGo_ok env rest _ inst h
      rw [hfr name hnd.1]
      show strLookup (strSet self.idict name (f s)) name = _
      rw [strLookup_strSet, if_pos rfl]
    · cases hstep : envStep env self k q with
      | error err => rw [hstep] at h; cases h
      | ok next =>
        rw [hstep] at h
        exact ih next inst name param e s f hmemr hnd.2 he hne hs hs0 ht h

theorem initGo_miss (env : StrMap String)
    (entries : List (String × Parameter)) :
    ∀ self inst name param,
      (name, param) ∈ entries → (entries.map Prod.fst).Nodup →
      (param.envvar = none ∨ ∀ e, param.envvar = some e →
        (e = "" ∨ strLookup env e = none ∨ strLookup env e = some "")) →
      initGo env self entries = .ok inst →
      strLookup inst.idict name = strLookup self.idict name := by
  induction entries with
  | nil => intro _ _ _ _ hmem _ _ _; cases hmem
  | cons hd rest ih =>
    intro self inst name param hmem hnd hcond h
    obtain ⟨k, q⟩ := hd
    simp only [List.map_cons, List.nodup_cons] at hnd
    unfold initGo at h
    rcases List.mem_cons.mp hmem with heq | hmemr
    · obtain ⟨hk, hq⟩ := Prod.mk.injEq .. ▸ heq
      subst hk
      subst hq
      rw [envStep_miss env self name param hcond] at h
      obtain ⟨_, _, hfr⟩ := initGo_ok env rest _ inst h
      exact hfr name hnd.1
    · cases hstep : envStep env self k q with
      | error err => rw [hstep] at h; cases h
      | ok next =>
        rw [hstep] at h
        have hk : name ≠ k := by
          intro hh
          subst hh
          exact hnd.1 (List.mem_map.mpr ⟨(name, param), hmemr, rfl⟩)
        obtain ⟨_, _, hfr2⟩ := envStep_ok env self k q next hstep
        rw [ih next inst name param hmemr hnd.2 hcond h, hfr2 name hk]

/-- C6: for a parameter that declares an environment-variable name, at first
construction: if the variable is present with a non-empty value and a
converter is declared, the instance reads `converter(envValue)` for that
parameter; if the variable is unset or empty (or the declared name is
empty), a statically-declared parameter reads its coded default. -/
theorem C6_env_override (cls : ConfigClass) (env : StrMap String)
    (name : String) (param : Parameter) (inst : ConfigInstance)
    (hreg : strLookup cls.config_params name = some param)
    (hnd : (cls.config_params.map Prod.fst).Nodup)
    (hinit : configInit cls env = .ok inst) :
    (∀ e s f, param.envvar = some e → e ≠ "" →
        strLookup env e = some s → s ≠ "" → param.type_ = some f →
        ∀ g, strLookup cls.getters name = some g →
        (configRead inst name).1 = some (f s)) ∧
      ((param.envvar = none ∨ ∀ e, param.envvar = some e →
          (e = "" ∨ strLookup env e = none ∨ strLookup env e = some "")) →
        strLookup cls.getters name = some .staticGetter →
        strLookup cls.slots name = some param.value →
        (configRead inst name).1 = some param.value) := by
  have hmem := strLookup_mem cls.config_params name param hreg
  have hcls : inst.cls = cls := (initGo_ok env cls.config_params _ inst hinit).1
  constructor
  · intro e s f he hne hs hs0 ht g hg
    have hid : strLookup inst.idict name = some (f s) :=
      initGo_hit env cls.config_params _ inst name param e s f hmem hnd he hne
        hs hs0 ht hinit
    unfold configRead
    rw [hcls, hg]
    cases g with
    | staticGetter =>
      unfold get_static
      rw [hid]
    | lazyGetter fn =>
      unfold get_callable
      show (match strLookup inst.idict name with
        | some v => (some v, _)
        | Option.none => (some (fn ()), _)).1 = some (f s)
      rw [hid]
  · intro hcond hg hslot
    have hid : strLookup inst.idict name = strLookup ([] : StrMap PyVal) name :=
      initGo_miss env cls.config_params _ inst name param hmem hnd hcond hinit
    unfold configRead
    rw [hcls, hg]
    unfold get_static
    rw [hid]
    show strLookup inst.cls.slots name = some param.value
    rw [hcls]
    exact hslot

/-- A class declaring parameter `a` bound to environment variable VAR_A and
parameter `b` bound to VAR_B, both with the example converter. -/
def exEnv : ConfigClass :=
  ConfigMeta.new []
    [("a", .param (.int 1) (some exConvFn) "" (some "VAR_A")),
     ("b", .param (.int 2) (some exConvFn) "" (some "VAR_B"))]

/-- C6 witness: constructing with VAR_A=on set and VAR_B unset, the instance
reads `converter("on")` for `a` and the coded default 2 for `b`. -/
theorem C6_env_override_witness :
    (configRead (ConfigInstance.mk exEnv [("a", exConvFn "on")] []) "a").1 =
        some (exConvFn "on") ∧
      (configRead (ConfigInstance.mk exEnv [("a", exConvFn "on")] []) "b").1 =
        some (PyVal.int 2) :=
  ⟨(C6_env_override exEnv [("VAR_A", "on")] "a"
      ⟨PyVal.int 1, some exConvFn, "", some "VAR_A"⟩
      (ConfigInstance.mk exEnv [("a", exConvFn "on")] [])
      (by rfl) (by decide) (by rfl)).1 "VAR_A" "on" exConvFn rfl (by decide)
      rfl (by decide) rfl Getter.staticGetter (by rfl),
    (C6_env_override exEnv [("VAR_A", "on")] "b"
      ⟨PyVal.int 2, some exConvFn, "", some "VAR_B"⟩
      (ConfigInstance.mk exEnv [("a", exConvFn "on")] [])
      (by rfl) (by decide) (by rfl)).2
      (Or.inr (fun e he => by
        rw [show (⟨PyVal.int 2, some exConvFn, "", some "VAR_B"⟩ :
            Parameter).envvar = some "VAR_B" from rfl] at he
        obtain rfl := Option.some.inj he
        exact Or.inr (Or.inl rfl)))
      (by rfl) (by rfl)⟩

theorem get_static_fst (i : ConfigInstance) (n : String) :
    (get_static i n).1 = optOr (strLookup i.idict n) (strLookup i.cls.slots n) := by
  cases h : strLookup i.idict n <;> simp [get_static, h, optOr]

theorem get_callable_fst (i : ConfigInstance) (n : String) (f : Unit → PyVal) :
    (get_callable i n f).1 = optOr (strLookup i.idict n) (some (f ())) := by
  cases h : strLookup i.idict n <;> simp [get_callable, h, optOr]

theorem configRead_fst (i : ConfigInstance) (n : String) :
    (configRead i n).1 =
      match strLookup i.cls.getters n with
      | some .staticGetter =>
        optOr (strLookup i.idict n) (strLookup i.cls.slots n)
      | some (.lazyGetter f) => optOr (strLookup i.idict n) (some (f ()))
      | Option.none => none := by
  cases hg : strLookup i.cls.getters n with
  | none => simp [configRead, hg]
  | some g =>
    cases g with
    | staticGetter => simp [configRead, hg, get_static_fst]
    | lazyGetter f => simp [configRead, hg, get_callable_fst]

theorem configRead_value_congr (i1 i2 : ConfigInstance) (n : String)
    (hget : strLookup i1.cls.getters n = strLookup i2.cls.getters n)
    (hslot : strLookup i1.cls.slots n = strLookup i2.cls.slots n)
    (hid : strLookup i1.idict n = strLookup i2.idict n) :
    (configRead i1 n).1 = (configRead i2 n).1 := by
  rw [configRead_fst, configRead_fst, hget, hslot, hid]

theorem configRead_value_of_idict (i : ConfigInstance) (n : String) (v : PyVal)
    (g : Getter) (hg : strLookup i.cls.getters n = some g)
    (hid : strLookup i.idict n = some v) :
    (configRead i n).1 = some v := by
  rw [configRead_fst, hg]
  cases g <;> rw [hid] <;> rfl

theorem configRead_state (i : ConfigInstance) (n : String) :
    (configRead i n).2.cls = i.cls ∧
      ∀ m, m ≠ n → strLookup (configRead i n).2.idict m = strLookup i.idict m := by
  cases hg : strLookup i.cls.getters n with
  | none => exact ⟨by simp [configRead, hg], fun m _ => by simp [configRead, hg]⟩
  | some g =>
    cases g with
    | staticGetter =>
      cases h : strLookup i.idict n <;>
        exact ⟨by simp [configRead, hg, get_static, h],
          fun m _ => by simp [configRead, hg, get_static, h]⟩
    | lazyGetter f =>
      cases h : strLookup i.idict n with
      | some v =>
        exact ⟨by simp [configRead, hg, get_callable, h],
          fun m _ => by simp [configRead, hg, get_callable, h]⟩
      | none =>
        refine ⟨by simp [configRead, hg, get_callable, h], fun m hm => ?_⟩
        simp only [configRead, hg, get_callable, h]
        rw [strLookup_strSet]
        exact if_neg (fun hh => hm hh.symm)

theorem readAll_ok (names : List String) : ∀ (self : ConfigInstance)
    (d : StrMap PyVal) (i1 : ConfigInstance),
    readAll self names = .ok (d, i1) →
    i1.cls = self.cls ∧ d.map Prod.fst = names ∧
      ∀ n, n ∉ names → strLookup i1.idict n = strLookup self.idict n := by
  induction names with
  | nil =>
    intro self d i1 h
    obtain ⟨rfl, rfl⟩ := Prod.mk.injEq .. ▸ Except.ok.inj h
    exact ⟨rfl, rfl, fun n _ => rfl⟩
  | cons m rest ih =>
    intro self d i1 h
    unfold readAll at h
    rcases hcr : configRead self m with ⟨r, next⟩
    rw [hcr] at h
    cases r with
    | none => cases h
    | some v =>
      simp only at h
      cases hrest : readAll next rest with
      | error e => rw [hrest] at h; cases h
      | ok out =>
        obtain ⟨drest, ifinal⟩ := out
        rw [hrest] at h
        obtain ⟨rfl, rfl⟩ := Prod.mk.injEq .. ▸ (Except.ok.inj h).symm
        obtain ⟨hc, hk, hfr⟩ := ih next drest i1 hrest
        have hnext : (configRead self m).2 = next := by rw [hcr]
        obtain ⟨hc2, hfr2⟩ := configRead_state self m
        rw [hnext] at hc2 hfr2
        refine ⟨hc.trans hc2, by simp [hk], fun n hn => ?_⟩
        simp only [List.mem_cons] at hn
        push_neg at hn
        rw [hfr n hn.2, hfr2 n hn.1]

theorem readAll_values (names : List String) : ∀ (self : ConfigInstance)
    (d : StrMap PyVal) (i1 : ConfigInstance) (n : String) (v : PyVal),
    readAll self names = .ok (d, i1) → strLookup d n = some v →
    (configRead self n).1 = some v := by
  induction names with
  | nil =>
    intro self d i1 n v h hl
    obtain ⟨rfl, rfl⟩ := Prod.mk.injEq .. ▸ Except.ok.inj h
    cases hl
  | cons m rest ih =>
    intro self d i1 n v h hl
    unfold readAll at h
    rcases hcr : configRead self m with ⟨r, next⟩
    rw [hcr] at h
    cases r with
    | none => cases h
    | some w =>
      simp only at h
      cases hrest : readAll next rest with
      | error e => rw [hrest] at h; cases h
      | ok out =>
        obtain ⟨drest, ifinal⟩ := out
        rw [hrest] at h
        obtain ⟨rfl, rfl⟩ := Prod.mk.injEq .. ▸ (Except.ok.inj h).symm
        by_cases hmn : m = n
        · subst hmn
          rw [strLookup, if_pos rfl] at hl
          obtain rfl := Option.some.inj hl
          rw [hcr]
        · rw [strLookup, if_neg hmn] at hl
          have hval := ih next drest i1 n v hrest hl
          have hnext : (configRead self m).2 = next := by rw [hcr]
          obtain ⟨hc2, hfr2⟩ := configRead_state self m
          rw [hnext] at hc2 hfr2
          rw [← hval]
          exact configRead_value_congr self next n
            (by rw [hc2]) (by rw [hc2]) (hfr2 n (fun hh => hmn hh.symm)).symm

theorem strLookup_isSome_of_mem_keys {α : Type} (d : StrMap α) (n : String)
    (h : n ∈ d.map Prod.fst) : ∃ v, strLookup d n = some v := by
  induction d with
  | nil => cases h
  | cons hd rest ih =>
    obtain ⟨k, v⟩ := hd
    by_cases hk : k = n
    · exact ⟨v, by rw [strLookup, if_pos hk]⟩
    · have hmem : n ∈ rest.map Prod.fst := by
        simp only [List.map_cons, List.mem_cons] at h
        rcases h with h | h
        · exact absurd h.symm hk
        · exact h
      obtain ⟨w, hw⟩ := ih hmem
      exact ⟨w, by rw [strLookup, if_neg hk]; exact hw⟩

theorem setDict_writes (data : List (String × PyVal)) :
    ∀ (self : ConfigInstance) (n : String) (v : PyVal),
      (data.map Prod.fst).Nodup →
      (∀ x ∈ data.map Prod.fst,
        ∃ q, strLookup self.cls.config_params x = some q) →
      strLookup data n = some v →
      strLookup (Config.set_dict self data).1.idict n = some v := by
  induction data with
  | nil => intro _ n v _ _ hl; cases hl
  | cons hd rest ih =>
    intro self n v hnd hcov hl
    obtain ⟨k, w⟩ := hd
    simp only [List.map_cons, List.nodup_cons] at hnd
    obtain ⟨q, hq⟩ := hcov k (by simp)
    show strLookup (match strLookup self.cls.config_params k with
      | Option.none => (self, some (PyError.keyError k))
      | some p =>
        Config.set_dict { self with idict := strSet self.idict k w }
          rest).1.idict n = some v
    rw [hq]
    by_cases hkn : k = n
    · rw [setDict_idict_frame rest _ n (hkn ▸ hnd.1)]
      show strLookup (strSet self.idict k w) n = some v
      rw [strLookup_strSet, if_pos hkn]
      rw [strLookup, if_pos hkn] at hl
      exact hl
    · rw [strLookup, if_neg hkn] at hl
      exact ih { self with idict := strSet self.idict k w } n v hnd.2
        (fun x hx => hcov x (by simp [hx])) hl

theorem setDict_no_error (data : List (String × PyVal)) :
    ∀ (self : ConfigInstance),
      (∀ x ∈ data.map Prod.fst,
        ∃ q, strLookup self.cls.config_params x = some q) →
      (Config.set_dict self data).2 = none := by
  induction data with
  | nil => intro _ _; rfl
  | cons hd rest ih =>
    intro self hcov
    obtain ⟨k, w⟩ := hd
    obtain ⟨q, hq⟩ := hcov k (by simp)
    show (match strLookup self.cls.config_params k with
      | Option.none => (self, some (PyError.keyError k))
      | some p =>
        Config.set_dict { self with idict := strSet self.idict k w }
          rest).2 = none
    rw [hq]
    exact ih { self with idict := strSet self.idict k w }
      (fun x hx => hcov x (by simp [hx]))

/-- C8: exporting the current values and importing the export back
(`set_dict(get_dict())`) succeeds and leaves every parameter unchanged:
reading any attribute afterwards yields the same value as reading it before
the round trip. -/
theorem C8_roundtrip (self : ConfigInstance) (d : StrMap PyVal)
    (i1 i2 : ConfigInstance) (err : Option PyError)
    (hnd : (self.cls.config_params.map Prod.fst).Nodup)
    (h0 : Config.get_dict self false = .ok (d, i1))
    (h1 : Config.set_dict i1 d = (i2, err)) :
    err = none ∧ ∀ n, (configRead i2 n).1 = (configRead self n).1 := by
  unfold Config.get_dict at h0
  cases hra : readAll self (self.cls.config_params.map Prod.fst) with
  | error e => rw [hra] at h0; cases h0
  | ok out =>
    obtain ⟨dout, iout⟩ := out
    rw [hra] at h0
    simp only [Bool.false_eq_true, if_false] at h0
    obtain ⟨hd, hi⟩ := Prod.mk.injEq .. ▸ Except.ok.inj h0
    subst hd
    subst hi
    obtain ⟨hc1, hk, hfr1⟩ := readAll_ok _ self dout iout hra
    have hcov : ∀ x ∈ dout.map Prod.fst,
        ∃ q, strLookup iout.cls.config_params x = some q := by
      intro x hx
      rw [hk] at hx
      rw [hc1]
      exact strLookup_isSome_of_mem_keys _ x hx
    have hknd : (dout.map Prod.fst).Nodup := by rw [hk]; exact hnd
    have herr : err = none := by
      have := setDict_no_error dout iout hcov
      rw [h1] at this
      exact this
    have hi2 : (Config.set_dict iout dout).1 = i2 := by rw [h1]
    have hc2 : i2.cls = self.cls := by
      rw [← hi2, setDict_cls]
      exact hc1
    refine ⟨herr, fun n => ?_⟩
    by_cases hmem : n ∈ dout.map Prod.fst
    · obtain ⟨v, hv⟩ := strLookup_isSome_of_mem_keys dout n hmem
      have hread : (configRead self n).1 = some v :=
        readAll_values _ self dout iout n v hra hv
      have hid2 : strLookup i2.idict n = some v := by
        rw [← hi2]
        exact setDict_writes dout iout n v hknd hcov hv
      obtain ⟨g, hg⟩ : ∃ g, strLookup self.cls.getters n = some g := by
        cases hg0 : strLookup self.cls.getters n with
        | none =>
          rw [configRead_fst, hg0] at hread
          cases hread
        | some g => exact ⟨g, rfl⟩
      rw [hread]
      exact configRead_value_of_idict i2 n v g (by rw [hc2]; exact hg) hid2
    · have hid2 : strLookup i2.idict n = strLookup self.idict n := by
        rw [← hi2, setDict_idict_frame dout iout n hmem]
        rw [hk] at hmem
        exact hfr1 n hmem
      exact configRead_value_congr i2 self n (by rw [hc2]) (by rw [hc2]) hid2

/-- A class with a static parameter `s` and a lazy-factory parameter `l`,
used to exercise the export/import round trip. -/
def exRound : ConfigClass :=
  ConfigMeta.new []
    [("s", .param (.int 3) none "" none),
     ("l", .param (.func (fun _ => .str "made")) none "" none)]

/-- C8 witness: the round trip on a fresh instance of the two-parameter
class leaves the values read for `s` and `l` unchanged. -/
theorem C8_roundtrip_witness :
    (configRead (ConfigInstance.mk exRound
          [("l", PyVal.str "made"), ("s", PyVal.int 3)] [("l", 1)]) "s").1 =
        (configRead (ConfigInstance.mk exRound [] []) "s").1 ∧
      (configRead (ConfigInstance.mk exRound
          [("l", PyVal.str "made"), ("s", PyVal.int 3)] [("l", 1)]) "l").1 =
        (configRead (ConfigInstance.mk exRound [] []) "l").1 :=
  ⟨(C8_roundtrip (ConfigInstance.mk exRound [] [])
      [("s", PyVal.int 3), ("l", PyVal.str "made")]
      (ConfigInstance.mk exRound [("l", PyVal.str "made")] [("l", 1)])
      (ConfigInstance.mk exRound
        [("l", PyVal.str "made"), ("s", PyVal.int 3)] [("l", 1)])
      none (by decide) (by rfl) (by rfl)).2 "s",
    (C8_roundtrip (ConfigInstance.mk exRound [] [])
      [("s", PyVal.int 3), ("l", PyVal.str "made")]
      (ConfigInstance.mk exRound [("l", PyVal.str "made")] [("l", 1)])
      (ConfigInstance.mk exRound
        [("l", PyVal.str "made"), ("s", PyVal.int 3)] [("l", 1)])
      none (by decide) (by rfl) (by rfl)).2 "l"⟩

/-- C10: the strict export is exactly the plain export filtered by the
runtime-type check `isinstance(value, (int, bool, float, str, unicode,
list, dict))`: an entry of the export is kept in the strict export exactly
when its current value is one of those types, and dropped otherwise. -/
theorem C10_strict_export_type_filter (self : ConfigInstance)
    (dout : StrMap PyVal) (i1 : ConfigInstance)
    (hra : readAll self (self.cls.config_params.map Prod.fst) =
      .ok (dout, i1)) :
    Config.get_dict self false = .ok (dout, i1) ∧
      Config.get_dict self true =
        .ok (dout.filter (fun kv => isSerializableInstance kv.2), i1) ∧
      ∀ n v, (n, v) ∈ dout →
        ((n, v) ∈ dout.filter (fun kv => isSerializableInstance kv.2) ↔
          isSerializableInstance v = true) := by
  refine ⟨?_, ?_, ?_⟩
  · unfold Config.get_dict
    rw [hra]
    rfl
  · unfold Config.get_dict
    rw [hra]
    rfl
  · intro n v hm
    constructor
    · intro hf
      exact (List.mem_filter.mp hf).2
    · intro hs
      exact List.mem_filter.mpr ⟨hm, hs⟩

/-- A class with a serializable parameter `x` (an int) and a non-serializable
parameter `o` (an opaque object). -/
def exMix : ConfigClass :=
  ConfigMeta.new []
    [("x", .param (.int 1) none "" none), ("o", .param (.obj 0) none "" none)]

/-- C10 witness: the strict export of the mixed class keeps the int and drops
the opaque object. -/
theorem C10_strict_export_type_filter_witness :
    Config.get_dict (ConfigInstance.mk exMix [] []) false =
        .ok ([("x", PyVal.int 1), ("o", PyVal.obj 0)],
          ConfigInstance.mk exMix [] []) ∧
      Config.get_dict (ConfigInstance.mk exMix [] []) true =
        .ok ([("x", PyVal.int 1)], ConfigInstance.mk exMix [] []) ∧
      (("x", PyVal.int 1) ∈ [("x", PyVal.int 1)] ↔
        isSerializableInstance (PyVal.int 1) = true) :=
  ⟨(C10_strict_export_type_filter (ConfigInstance.mk exMix [] [])
      [("x", PyVal.int 1), ("o", PyVal.obj 0)]
      (ConfigInstance.mk exMix [] []) (by rfl)).1,
    (C10_strict_export_type_filter (ConfigInstance.mk exMix [] [])
      [("x", PyVal.int 1), ("o", PyVal.obj 0)]
      (ConfigInstance.mk exMix [] []) (by rfl)).2.1,
    (C10_strict_export_type_filter (ConfigInstance.mk exMix [] [])
      [("x", PyVal.int 1), ("o", PyVal.obj 0)]
      (ConfigInstance.mk exMix [] []) (by rfl)).2.2 "x" (PyVal.int 1)
      (List.mem_cons_self _ _)⟩
